import Mathlib

/-!
Verification of the pdf_tools repository (src/pdf_tools) against its
natural-language specification.  The Python source is shallowly embedded:
pure fragments become Lean functions over a data model of the engine-level
structured text (blocks, lines, spans), page coordinates and font sizes are
rationals, Python exceptions become Except values, and Python str.strip is
modelled explicitly over the character list of a string.
-/

namespace PdfTools

/-! ## String model: Python str.strip and substring containment -/

/-- Strip whitespace from both ends of a character list: drop a whitespace
run at the front, then one at the back.  Models Python str.strip(). -/
def stripChars (l : List Char) : List Char :=
  ((l.dropWhile Char.isWhitespace).reverse.dropWhile Char.isWhitespace).reverse

/-- Models Python str.strip() on strings. -/
def pstrip (s : String) : String :=
  String.mk (stripChars s.data)

/-- Bool substring test on character lists: needle occurs contiguously in hay. -/
def charsContain (needle : List Char) : List Char → Bool
  | [] => needle.isEmpty
  | c :: cs => needle.isPrefixOf (c :: cs) || charsContain needle cs

/-- Models the Python operator needle in hay on strings. -/
def strContains (hay needle : String) : Bool :=
  charsContain needle.data hay.data

/-- Models Python str.lower() (ASCII case folding suffices for the font keys). -/
def strLower (s : String) : String :=
  String.mk (s.data.map Char.toLower)

/-! ## Data model of engine structured text (page.get_text("dict")) -/

/-- One span of the structured text: text run with one font and size.
From the engine dict keys "text", "font", "size". -/
structure Span where
  text : String
  font : String
  size : ℚ
deriving DecidableEq

/-- A bounding box (x0, y0, x1, y1); index 1 of the Python bbox tuple is y0. -/
structure BBox where
  x0 : ℚ
  y0 : ℚ
  x1 : ℚ
  y1 : ℚ
deriving DecidableEq

/-- One line of the structured text: bbox plus spans. -/
structure SrcLine where
  bbox : BBox
  spans : List Span
deriving DecidableEq

/-- One block of the structured text; an image block has no lines. -/
structure Block where
  lines : List SrcLine
deriving DecidableEq

/-- The per-line record built by extract_content_as_markdown:
formatted text, top coordinate (bbox index 1), representative size. -/
structure LineInfo where
  text : String
  top : ℚ
  size : ℚ
deriving DecidableEq

/-- A detected table; extract() either raises or yields rows of string cells. -/
structure Table where
  extract : Except Unit (List (List String))

/-- Result of page.find_tables() followed by the per-table extract calls:
the whole step may raise (modelled as Except.error). -/
abbrev TablesResult := Except Unit (List Table)

/-- Engine-level input for one page: structured text blocks and the
behaviour of the table finder on that page. -/
structure PageInput where
  blocks : List Block
  tables : TablesResult

/-- Output record of the extraction functions (pdf_types.PageContent). -/
structure PageContent where
  page : Nat
  content : String
deriving DecidableEq

/-! ## Sorting and median (Python statistics.median) -/

/-- Insert into an ascending list, keeping it ascending. -/
def insertSorted (x : ℚ) : List ℚ → List ℚ
  | [] => [x]
  | y :: ys => if x ≤ y then x :: y :: ys else y :: insertSorted x ys

/-- Ascending sort by insertion.  On rationals any correct ascending sort
produces the same list, so this models the sort inside statistics.median. -/
def sortAsc (l : List ℚ) : List ℚ :=
  l.foldr insertSorted []

/-- Models Python statistics.median: sort ascending; odd length takes the
middle element, even length averages the two middle elements.  (The source
never calls it on an empty list; the getD default is unreachable there.) -/
def median (l : List ℚ) : ℚ :=
  let s := sortAsc l
  let n := s.length
  if n % 2 = 1 then s.getD (n / 2) 0
  else (s.getD (n / 2 - 1) 0 + s.getD (n / 2) 0) / 2

/-! ## extract_content_as_markdown: span formatting and line aggregation -/

/-- read_tools.format_span: wrap trimmed span text per bold/italic flags. -/
def format_span (text : String) (is_bold is_italic : Bool) : String :=
  if is_bold && is_italic then "***" ++ text ++ "***"
  else if is_bold then "**" ++ text ++ "**"
  else if is_italic then "*" ++ text ++ "*"
  else text

/-- Bold flag of a span: the font name contains "Bold". -/
def isBoldSpan (sp : Span) : Bool :=
  strContains sp.font "Bold"

/-- Italic flag of a span: the font name contains "Italic" or "Oblique". -/
def isItalicSpan (sp : Span) : Bool :=
  strContains sp.font "Italic" || strContains sp.font "Oblique"

/-- One iteration of the span loop of extract_content_as_markdown:
skip spans whose stripped text is empty, otherwise append the stripped
size to line_styles and the formatted text plus one space to line_text. -/
def lineFoldStep (acc : String × List ℚ) (sp : Span) : String × List ℚ :=
  let t := pstrip sp.text
  if t = "" then acc
  else (acc.1 ++ format_span t (isBoldSpan sp) (isItalicSpan sp) ++ " ", acc.2 ++ [sp.size])

/-- The span loop: builds (line_text, line_styles) from the spans of a line. -/
def buildLine (spans : List Span) : String × List ℚ :=
  spans.foldl lineFoldStep ("", [])

/-- The body of "if line_text.strip(): spans_by_line.append(...)":
a retained line records the stripped text, the bbox top, and the median
span size (12 if no span contributed). -/
def lineEntry (ln : SrcLine) : Option LineInfo :=
  let lt := (buildLine ln.spans).1
  let styles := (buildLine ln.spans).2
  if pstrip lt = "" then none
  else some ⟨pstrip lt, ln.bbox.y0, if styles.isEmpty then 12 else median styles⟩

/-- spans_by_line of extract_content_as_markdown: all retained lines of the
page, in block order then line order. -/
def spans_by_line (blocks : List Block) : List LineInfo :=
  ((blocks.map Block.lines).flatten).filterMap lineEntry

/-- Page-normal size: median of the retained line sizes, 12 when none. -/
def normalSize (sbl : List LineInfo) : ℚ :=
  if sbl.isEmpty then 12 else median (sbl.map LineInfo.size)

/-! ## Paragraph grouping -/

/-- One iteration of the grouping loop: state is
(grouped_paragraphs, current_para, prev_top). -/
def groupStep (st : List (List LineInfo) × List LineInfo × Option ℚ)
    (line : LineInfo) : List (List LineInfo) × List LineInfo × Option ℚ :=
  match st with
  | (grouped, cur, some pt) =>
      if |line.top - pt| > 15 then (grouped ++ [cur], [line], some line.top)
      else (grouped, cur ++ [line], some line.top)
  | (grouped, cur, none) => (grouped, cur ++ [line], some line.top)

/-- The final flush after the grouping loop: a nonempty current_para is
appended to grouped_paragraphs. -/
def finishGroups (st : List (List LineInfo) × List LineInfo × Option ℚ) :
    List (List LineInfo) :=
  match st with
  | (g, cur, _) => if cur.isEmpty then g else g ++ [cur]

/-- The grouping loop of extract_content_as_markdown, including the final
flush of a nonempty current_para. -/
def grouped_paragraphs (lines : List LineInfo) : List (List LineInfo) :=
  finishGroups (lines.foldl groupStep ([], [], none))

/-! ## Heading inference and paragraph emission -/

/-- The heading chain of extract_content_as_markdown (strict comparisons
against 1.5x, 1.2x, 1.1x the page-normal size, in that order). -/
def headingOf (normal size : ℚ) : String :=
  if size > normal * (3/2) then "# "
  else if size > normal * (6/5) then "## "
  else if size > normal * (11/10) then "### "
  else ""

/-- The paragraph loop body: an empty paragraph contributes nothing
("if not para: continue"); otherwise one fragment, the heading of the
first line followed by the space-joined line texts and a newline. -/
def paraFragment (normal : ℚ) (para : List LineInfo) : List String :=
  match para with
  | [] => []
  | first :: _ =>
      [headingOf normal first.size ++ String.intercalate " " (para.map LineInfo.text) ++ "\n"]

/-! ## Table rendering -/

/-- A data row: pipe-delimited stripped cells. -/
def rowLine (row : List String) : String :=
  "| " ++ String.intercalate " | " (row.map pstrip) ++ " |"

/-- The separator row emitted after row 0: one --- per column of that row. -/
def sepLine (row : List String) : String :=
  "| " ++ String.intercalate " | " (List.replicate row.length "---") ++ " |"

/-- The row loop of the table block: the first row is followed by the
separator, the remaining rows render plainly. -/
def rowsRender : List (List String) → List String
  | [] => []
  | r0 :: rest => rowLine r0 :: sepLine r0 :: rest.map rowLine

/-- Processing one table inside the try block: the blank fragment is
appended before extract() runs, so when extract raises the error carries
the fragments accumulated so far (they stay in page_content). -/
def tableStep (acc : List String) (t : Table) : Except (List String) (List String) :=
  let acc1 := acc ++ ["\n"]
  match t.extract with
  | Except.error _ => Except.error acc1
  | Except.ok rows => Except.ok (acc1 ++ rowsRender rows ++ ["\n"])

/-- The loop over detected tables; an exception aborts the loop but the
fragments appended before it are kept ("except Exception: pass"). -/
def tablesGo : List Table → List String → List String
  | [], acc => acc
  | t :: ts, acc =>
      match tableStep acc t with
      | Except.error acc2 => acc2
      | Except.ok acc2 => tablesGo ts acc2

/-- The whole try/except table block: a find_tables failure contributes
nothing; otherwise the tables are processed until the first exception. -/
def tablesBlock (ft : TablesResult) (acc : List String) : List String :=
  match ft with
  | Except.error _ => acc
  | Except.ok tables => tablesGo tables acc

/-! ## Whole-page and whole-document markdown extraction -/

/-- Markdown extraction for one page, as in the body of the page loop of
extract_content_as_markdown. -/
def extract_page_markdown (pi : PageInput) : String :=
  let sbl := spans_by_line pi.blocks
  let normal := normalSize sbl
  let frags := ((grouped_paragraphs sbl).map (paraFragment normal)).flatten
  String.intercalate "\n" (tablesBlock pi.tables frags)

/-- Models "pages = pages or list(range(len(doc)))": None and the empty
list are both falsy in Python, so both select the full page range. -/
def resolvePages (pages : Option (List Nat)) (n : Nat) : List Nat :=
  match pages with
  | none => List.range n
  | some ps => if ps.isEmpty then List.range n else ps

/-- Fallback page used to totalise list indexing (the source assumes the
requested page indices are in range). -/
def defaultPage : PageInput := ⟨[], Except.ok []⟩

/-- read_tools.extract_content_as_markdown over an already-opened document,
given as the engine-level inputs of its pages. -/
def extract_content_as_markdown (docPages : List PageInput)
    (page : Option (List Nat)) : List PageContent :=
  (resolvePages page docPages.length).map
    (fun p => ⟨p, extract_page_markdown (docPages.getD p defaultPage)⟩)

/-- read_tools.extract_content_as_text over an already-opened document,
given as the page.get_text() result of each page. -/
def extract_content_as_text (docTexts : List String)
    (pages : Option (List Nat)) : List PageContent :=
  (resolvePages pages docTexts.length).map
    (fun p => ⟨p, docTexts.getD p ""⟩)

/-! ## write_tools.add_text (page effects only) -/

/-- One page.insert_text(position, text) call as recorded on a page. -/
structure TextAt where
  pos : ℚ × ℚ
  text : String
deriving DecidableEq

/-- write_tools.add_text over a document modelled as the list of the
insert_text calls applied to each page: every resolved page receives the
new text at the given position. -/
def add_text (docPages : List (List TextAt)) (text : String) (position : ℚ × ℚ)
    (pages : Option (List Nat)) : List (List TextAt) :=
  (resolvePages pages docPages.length).foldl
    (fun d p => d.set p (d.getD p [] ++ [⟨position, text⟩])) docPages

/-! ## utils.path_is_allowed and the shared tool prologue -/

/-- A fully resolved absolute path, as its list of components
(Path.resolve output; the empty list is the filesystem root). -/
abbrev RPath := List String

/-- d is a member of Path(p).parents: a strict ancestor of p, that is a
proper prefix of the component list. -/
def isStrictAncestor (d p : RPath) : Bool :=
  d.isPrefixOf p && d.length < p.length

/-- utils.path_is_allowed, as the predicate "does not raise
NotAuthorizedError": with no allowlist it always passes; with an allowlist
it passes when the resolved path equals an allowed directory or has an
allowed directory among its ancestors. -/
def path_is_allowed (allowed : Option (List RPath)) (path : RPath) : Bool :=
  match allowed with
  | none => true
  | some dirs => dirs.any (fun d => d = path) || dirs.any (fun d => isStrictAncestor d path)

/-- The twelve exposed operations of the package (read_tools, write_tools). -/
inductive OpName
  | get_metadata
  | extract_content_as_text
  | extract_content_as_json
  | extract_content_as_markdown
  | extract_text_with_layout
  | list_annotations
  | add_text
  | replace_text
  | highlight_text
  | insert_image
  | delete_text_by_bbox
  | annotate_rect
deriving DecidableEq

/-- Engine events an operation can perform; opening the document is the
first one in every operation body. -/
inductive Event
  | openDoc (path : RPath)
  | engineCall (tag : Nat)
deriving DecidableEq

/-- The shared prologue of every exposed operation: each of the twelve
source functions begins with path_is_allowed(path) and only then calls
fitz.open(path) and its operation-specific engine work (abstracted by
bodies).  A failed check raises NotAuthorizedError before any event. -/
def runTool (allowed : Option (List RPath)) (op : OpName) (path : RPath)
    (bodies : OpName → List Event) : Except Unit (List Event) :=
  if path_is_allowed allowed path then Except.ok (Event.openDoc path :: bodies op)
  else Except.error ()

/-! ## write_tools.replace_text -/

/-- A fitz.Rect. -/
structure Rect where
  x0 : ℚ
  y0 : ℚ
  x1 : ℚ
  y1 : ℚ
deriving DecidableEq

/-- fitz Rect.intersects: the two rectangles share a nonempty rectangle. -/
def Rect.intersects (a b : Rect) : Bool :=
  max a.x0 b.x0 < min a.x1 b.x1 && max a.y0 b.y0 < min a.y1 b.y1

/-- A span as used by replace_text: keys "text", "font", "size", "origin",
"bbox", "color" of the engine span dict. -/
structure WSpan where
  text : String
  font : String
  size : ℚ
  origin : ℚ × ℚ
  bbox : Rect
  color : Int
deriving DecidableEq

/-- write_tools.FONT_FALLBACKS, in dict insertion order. -/
def FONT_FALLBACKS : List (String × String) :=
  [("Times New Roman", "Times-Roman"),
   ("Times", "Times-Roman"),
   ("Arial", "helv"),
   ("Arial Bold", "helv"),
   ("Helvetica", "helv"),
   ("Courier", "courier"),
   ("Courier New", "courier"),
   ("Symbol", "symbol"),
   ("default", "helv")]

/-- write_tools.parse_fontname: first fallback key contained
case-insensitively in the font name wins, otherwise the default "helv". -/
def parse_fontname (font_name : String) : String :=
  match FONT_FALLBACKS.find? (fun kv => strContains (strLower font_name) (strLower kv.1)) with
  | some kv => kv.2
  | none => "helv"

/-- The argument of parse_fontcolor: a Python float or int. -/
inductive ColorVal
  | float (v : ℚ)
  | int (v : Int)
deriving DecidableEq

/-- write_tools.parse_fontcolor: a float is treated as an already
normalized grey; an int is split into 8-bit RGB channels.  Python
value >> k is floor division by 2^k and value & 255 is mod 256. -/
def parse_fontcolor : ColorVal → ℚ × ℚ × ℚ
  | ColorVal.float v => (v, v, v)
  | ColorVal.int v =>
      ((((v.fdiv 65536).emod 256 : Int) : ℚ) / 255,
       (((v.fdiv 256).emod 256 : Int) : ℚ) / 255,
       ((v.emod 256 : Int) : ℚ) / 255)

/-- A replacement record collected by replace_text for one found instance. -/
structure Replacement where
  bbox : Rect
  font : String
  size : ℚ
  origin : ℚ × ℚ
deriving DecidableEq

/-- One page.insert_text call issued by replace_text. -/
structure Insertion where
  pos : ℚ × ℚ
  text : String
  fontname : String
  fontsize : ℚ
  color : ℚ × ℚ × ℚ
deriving DecidableEq

/-- The span-collection loop of replace_text: all spans of the page in
block, line, span order. -/
def pageAllSpans (blocks : List (List (List WSpan))) : List WSpan :=
  (blocks.map List.flatten).flatten

/-- The matching_spans list comprehension: spans whose text contains
old_text and whose bbox intersects the found instance. -/
def matching_spans (old_text : String) (all_spans : List WSpan) (inst : Rect) : List WSpan :=
  all_spans.filter (fun sp => strContains sp.text old_text && Rect.intersects sp.bbox inst)

/-- The replacement-collection loop: for each found instance with a
nonempty matching_spans list, record the instance bbox and the font, size
and origin of the first matching span. -/
def page_replacements (old_text : String) (all_spans : List WSpan)
    (instances : List Rect) : List Replacement :=
  instances.filterMap (fun inst =>
    match matching_spans old_text all_spans inst with
    | [] => none
    | best :: _ => some ⟨inst, best.font, best.size, best.origin⟩)

/-- The color of the loop variable span after the span-collection loop:
the last span iterated over the whole page (unreachable default 0 when the
page has no spans, in which case no insertion is issued either). -/
def leakedColor (all_spans : List WSpan) : Int :=
  match all_spans.getLast? with
  | some sp => sp.color
  | none => 0

/-- The insertion loop of replace_text on one page: position and font data
come from the replacement record, but the color argument reads the leaked
loop variable span, hence the last span of the page. -/
def replace_text_insertions (old_text new_text : String)
    (blocks : List (List (List WSpan))) (instances : List Rect) : List Insertion :=
  let all_spans := pageAllSpans blocks
  (page_replacements old_text all_spans instances).map
    (fun r => ⟨(r.bbox.x0, r.origin.2), new_text, parse_fontname r.font, r.size,
               parse_fontcolor (ColorVal.int (leakedColor all_spans))⟩)

/-! ## Spec-side definitions for the refinement claims -/

/-- Reference grouping, worded as the specification describes it: walking
the retained lines in document order, a new paragraph boundary sits
between two consecutive lines exactly when the absolute difference of
their top coordinates strictly exceeds 15 units, and the final paragraph
is flushed at the end. -/
def paraGroupsSpec : List LineInfo → List (List LineInfo)
  | [] => []
  | [x] => [[x]]
  | x :: y :: xs =>
      match paraGroupsSpec (y :: xs) with
      | [] => [[x]]
      | g :: gs => if |y.top - x.top| > 15 then [x] :: g :: gs else (x :: g) :: gs

/-- The formatted fragment of one span: its trimmed text wrapped per the
bold and italic flags. -/
def formattedFragment (sp : Span) : String :=
  format_span (pstrip sp.text) (isBoldSpan sp) (isItalicSpan sp)

/-- Reference line text, worded as the specification describes it: keep
the spans with nonempty trimmed text, wrap each, concatenate each followed
by a single space, then trim the result. -/
def lineTextSpec (spans : List Span) : String :=
  pstrip (String.join ((spans.filter (fun sp => pstrip sp.text != "")).map
    (fun sp => formattedFragment sp ++ " ")))

/-- The grouping loop after its first iteration: cur is the (nonempty)
current paragraph and pt the top of the previous line; the remaining lines
are folded exactly as the loop does. -/
def consume (cur : List LineInfo) (pt : ℚ) : List LineInfo → List (List LineInfo)
  | [] => [cur]
  | x :: xs =>
      if |x.top - pt| > 15 then cur :: consume [x] x.top xs
      else consume (cur ++ [x]) x.top xs

/-! ## Concrete inputs used by witnesses and counterexamples -/

/-- A one-span line in the plain font F. -/
def plainLine (t : String) (top sz : ℚ) : SrcLine :=
  ⟨⟨0, top, 10, top + 5⟩, [⟨t, "F", sz⟩]⟩

/-- A page whose first paragraph has first-line size 18, exactly 1.5 times
the page-normal size 12 (the median of the three line sizes 18, 12, 12). -/
def headingPage : PageInput :=
  ⟨[⟨[plainLine "a" 0 18, plainLine "b" 100 12, plainLine "c" 110 12]⟩], Except.ok []⟩

/-- A one-paragraph page whose table finder succeeds but whose first
detected table raises inside extract(). -/
def failingTablePage : PageInput :=
  ⟨[⟨[plainLine "a" 0 12]⟩], Except.ok [⟨Except.error ()⟩]⟩

/-- The same one-paragraph page with no detected tables. -/
def noTablePage : PageInput :=
  ⟨[⟨[plainLine "a" 0 12]⟩], Except.ok []⟩

/-- The 2-row, 3-column table of the table-rendering claim. -/
def table2x3 : Table :=
  ⟨Except.ok [["a", "b", "c"], ["d", "e", "f"]]⟩

/-- A page holding a span that contains the text old (font Arial, blue
color 255) followed by a later span in another font and color 0. -/
def demoBlocks : List (List (List WSpan)) :=
  [[[⟨"old x", "Arial", 10, (0, 9), ⟨0, 0, 10, 10⟩, 255⟩,
     ⟨"zzz", "Times", 8, (50, 59), ⟨50, 50, 60, 60⟩, 0⟩]]]

/-- A search_for hit over the first span of demoBlocks. -/
def demoInst : Rect := ⟨1, 1, 2, 2⟩

/-! ## Shared helper lemmas -/

/-- The table loop only ever appends to the already emitted fragments:
whatever the table finder does, the paragraph output stays as a prefix. -/
theorem tablesGo_extends (ts : List Table) :
    ∀ acc : List String, ∃ extra, tablesGo ts acc = acc ++ extra := by
  induction ts with
  | nil => exact fun acc => ⟨[], by simp [tablesGo]⟩
  | cons t ts ih =>
    intro acc
    cases hex : t.extract with
    | error e => exact ⟨["\n"], by simp [tablesGo, tableStep, hex]⟩
    | ok rows =>
      have h2 : tablesGo (t :: ts) acc
          = tablesGo ts ((acc ++ ["\n"]) ++ rowsRender rows ++ ["\n"]) := by
        simp [tablesGo, tableStep, hex]
      obtain ⟨extra, hx⟩ := ih ((acc ++ ["\n"]) ++ rowsRender rows ++ ["\n"])
      refine ⟨["\n"] ++ rowsRender rows ++ ["\n"] ++ extra, ?_⟩
      rw [h2, hx]
      simp [List.append_assoc]

/-- The whole table block only ever appends to the emitted fragments. -/
theorem tablesBlock_extends (ft : TablesResult) (acc : List String) :
    ∃ extra, tablesBlock ft acc = acc ++ extra := by
  cases ft with
  | error e => exact ⟨[], by simp [tablesBlock]⟩
  | ok tables => simpa [tablesBlock] using tablesGo_extends tables acc

/-! ## C1: heading thresholds -/

/-- C1 (amended).  The heading prefix of a paragraph is decided by strict
comparison of the first-line size against the page-normal size through the
chain 1.5x, 1.2x, 1.1x, else no prefix; a first line of exactly 1.5x the
(positive) page-normal size therefore receives the prefix of the 1.2x tier,
namely two hash marks, not no prefix, while 1.51x receives one hash mark. -/
theorem heading_strict_thresholds (n s : ℚ) :
    (∀ (normal : ℚ) (first : LineInfo) (rest : List LineInfo),
        paraFragment normal (first :: rest) =
          [headingOf normal first.size ++
            String.intercalate " " ((first :: rest).map LineInfo.text) ++ "\n"])
  ∧ (s > n * (3/2) → headingOf n s = "# ")
  ∧ (s ≤ n * (3/2) → s > n * (6/5) → headingOf n s = "## ")
  ∧ (s ≤ n * (6/5) → s > n * (11/10) → headingOf n s = "### ")
  ∧ (0 ≤ n → s ≤ n * (11/10) → headingOf n s = "")
  ∧ (0 < n → headingOf n (n * (3/2)) = "## ")
  ∧ (0 < n → headingOf n (n * (151/100)) = "# ") := by
  refine ⟨fun normal first rest => rfl, ?_, ?_, ?_, ?_, ?_, ?_⟩
  · intro h
    rw [headingOf, if_pos h]
  · intro h1 h2
    rw [headingOf, if_neg (not_lt.mpr h1), if_pos h2]
  · intro h1 h2
    rw [headingOf, if_neg (not_lt.mpr (by linarith)), if_neg (not_lt.mpr h1), if_pos h2]
  · intro h0 h1
    rw [headingOf, if_neg (not_lt.mpr (by linarith)), if_neg (not_lt.mpr (by linarith)),
      if_neg (not_lt.mpr h1)]
  · intro h
    rw [headingOf, if_neg (lt_irrefl _), if_pos (by linarith)]
  · intro h
    rw [headingOf, if_pos (by linarith)]

/-- Witness for the heading thresholds at page-normal size 12. -/
theorem heading_strict_thresholds_witness :
    headingOf 12 20 = "# " ∧ headingOf 12 15 = "## " ∧ headingOf 12 14 = "### "
  ∧ headingOf 12 13 = "" ∧ headingOf 12 (12 * (3/2)) = "## "
  ∧ headingOf 12 (12 * (151/100)) = "# "
  ∧ paraFragment 12 [⟨"a", 0, 18⟩] =
      [headingOf 12 18 ++ String.intercalate " " ["a"] ++ "\n"] :=
  ⟨(heading_strict_thresholds 12 20).2.1 (by norm_num),
   (heading_strict_thresholds 12 15).2.2.1 (by norm_num) (by norm_num),
   (heading_strict_thresholds 12 14).2.2.2.1 (by norm_num) (by norm_num),
   (heading_strict_thresholds 12 13).2.2.2.2.1 (by norm_num) (by norm_num),
   (heading_strict_thresholds 12 0).2.2.2.2.2.1 (by norm_num),
   (heading_strict_thresholds 12 0).2.2.2.2.2.2 (by norm_num),
   (heading_strict_thresholds 12 0).1 12 ⟨"a", 0, 18⟩ []⟩

/-- C1 counterexample: on a page of normal size 12, a paragraph whose
first line has size 18 = 12 x 1.5 receives the prefix of two hash marks,
not the no-prefix outcome the claim states. -/
theorem heading_at_exact_three_halves :
    (spans_by_line headingPage.blocks).map LineInfo.size = [18, 12, 12]
  ∧ normalSize (spans_by_line headingPage.blocks) = 12
  ∧ (18 : ℚ) = 12 * (3/2)
  ∧ headingOf 12 18 = "## "
  ∧ extract_page_markdown headingPage = "## a\n\nb c\n" := by
  have h1 : spans_by_line headingPage.blocks = [⟨"a", 0, 18⟩, ⟨"b", 100, 12⟩, ⟨"c", 110, 12⟩] := by
    simp +decide [spans_by_line, headingPage, plainLine, lineEntry, buildLine, lineFoldStep,
      pstrip, stripChars, format_span, isBoldSpan, isItalicSpan, strContains, charsContain,
      List.isPrefixOf, median, sortAsc, insertSorted]
  refine ⟨by rw [h1]; rfl, ?_, by norm_num, by norm_num [headingOf], ?_⟩
  · rw [h1]
    norm_num [normalSize, median, sortAsc, insertSorted]
  · rw [extract_page_markdown, h1]
    norm_num [grouped_paragraphs, groupStep, finishGroups, normalSize, median, sortAsc,
      insertSorted, paraFragment, headingOf, tablesBlock, tablesGo, headingPage]
    decide

/-! ## C9: empty page list behaves like None -/

/-- C9.  Substituting the page list whenever it is falsy makes the empty
list behave exactly like None: both select the full page range, in
extraction as well as in add_text. -/
theorem empty_pages_like_none (n : Nat) (docTexts : List String)
    (docs : List PageInput) (doc2 : List (List TextAt)) (text : String) (pos : ℚ × ℚ) :
    resolvePages (some []) n = List.range n
  ∧ resolvePages none n = List.range n
  ∧ extract_content_as_text docTexts (some []) = extract_content_as_text docTexts none
  ∧ extract_content_as_markdown docs (some []) = extract_content_as_markdown docs none
  ∧ add_text doc2 text pos (some []) = add_text doc2 text pos none :=
  ⟨rfl, rfl, rfl, rfl, rfl⟩

/-! ## C8: the path allowlist guard -/

/-- C8.  Every exposed operation runs the allowlist check before touching
the document: with an allowlist configured, a path that neither equals an
allowed directory nor has one among its ancestors makes the operation
raise NotAuthorizedError with no engine event at all (in particular the
file is not opened); with no allowlist, the check passes every path and
the operation proceeds, opening the document first. -/
theorem allowlist_guard :
    (∀ (dirs : List RPath) (path : RPath) (op : OpName) (bodies : OpName → List Event),
        (∀ d ∈ dirs, d ≠ path ∧ isStrictAncestor d path = false) →
        runTool (some dirs) op path bodies = Except.error ())
  ∧ (∀ (path : RPath) (op : OpName) (bodies : OpName → List Event),
        runTool none op path bodies = Except.ok (Event.openDoc path :: bodies op))
  ∧ (∀ path : RPath, path_is_allowed none path = true) := by
  refine ⟨?_, ?_, fun path => rfl⟩
  · intro dirs path op bodies h
    have hfalse : path_is_allowed (some dirs) path = false := by
      simp only [path_is_allowed, Bool.or_eq_false_iff, List.any_eq_false]
      constructor
      · intro d hd
        simpa using (h d hd).1
      · intro d hd
        simp [(h d hd).2]
    simp [runTool, hfalse]
  · intro path op bodies
    simp [runTool, path_is_allowed]

/-- Witness: a concrete path outside the allowlist is rejected before any
engine event. -/
theorem allowlist_guard_witness :
    runTool (some [["home", "docs"]]) OpName.get_metadata ["tmp", "evil"]
      (fun _ => []) = Except.error () :=
  allowlist_guard.1 [["home", "docs"]] ["tmp", "evil"] OpName.get_metadata
    (fun _ => []) (by decide)

/-! ## C4: table exceptions are caught -/

/-- C4 counterexample: when find_tables succeeds but extract() of the
first table raises, the swallowed exception still leaves the blank
fragment appended before the extract call in the page content, so the
table step does not contribute zero output lines. -/
theorem table_exception_partial_output :
    failingTablePage.blocks = noTablePage.blocks
  ∧ extract_page_markdown noTablePage = "a\n"
  ∧ extract_page_markdown failingTablePage = "a\n\n\n"
  ∧ extract_page_markdown failingTablePage ≠ extract_page_markdown noTablePage := by
  have h1 : spans_by_line noTablePage.blocks = [⟨"a", 0, 12⟩] := by
    simp +decide [spans_by_line, noTablePage, plainLine, lineEntry, buildLine, lineFoldStep,
      pstrip, stripChars, format_span, isBoldSpan, isItalicSpan, strContains, charsContain,
      List.isPrefixOf, median, sortAsc, insertSorted]
  have h2 : extract_page_markdown noTablePage = "a\n" := by
    rw [extract_page_markdown, h1]
    norm_num [grouped_paragraphs, groupStep, finishGroups, normalSize, median, sortAsc,
      insertSorted, paraFragment, headingOf, tablesBlock, tablesGo, noTablePage]
    decide
  have h3 : extract_page_markdown failingTablePage = "a\n\n\n" := by
    rw [extract_page_markdown, show spans_by_line failingTablePage.blocks = [⟨"a", 0, 12⟩] from h1]
    norm_num [grouped_paragraphs, groupStep, finishGroups, normalSize, median, sortAsc,
      insertSorted, paraFragment, headingOf, tablesBlock, tablesGo, tableStep, failingTablePage]
    decide
  refine ⟨rfl, h2, h3, ?_⟩
  rw [h2, h3]
  decide

/-- C4 (amended).  Any exception in the table step is fully caught: no
error propagates, the paragraph fragments always stay as a prefix of the
page output, and each page of the requested range still yields its entry.
When find_tables itself raises the table step contributes nothing, but an
exception inside a table extract() keeps the fragments already appended
(at least the blank-line fragment of that table). -/
theorem table_exceptions_caught (acc : List String) (ft : TablesResult) :
    (∃ extra, tablesBlock ft acc = acc ++ extra)
  ∧ (∀ e, ft = Except.error e → tablesBlock ft acc = acc)
  ∧ (∀ t ts, ft = Except.ok (t :: ts) → t.extract = Except.error () →
        tablesBlock ft acc = acc ++ ["\n"])
  ∧ (∀ (docPages : List PageInput) (ps : Option (List Nat)),
        (extract_content_as_markdown docPages ps).map PageContent.page
          = resolvePages ps docPages.length) := by
  refine ⟨tablesBlock_extends ft acc, ?_, ?_, ?_⟩
  · intro e he
    subst he
    rfl
  · intro t ts hft hex
    subst hft
    simp [tablesBlock, tablesGo, tableStep, hex]
  · intro docPages ps
    simp only [extract_content_as_markdown, List.map_map]
    exact List.map_id _

/-- Witness: a first table whose extract() raises leaves exactly the blank
fragment behind the paragraph output. -/
theorem table_exceptions_caught_witness :
    tablesBlock (Except.ok [(⟨Except.error ()⟩ : Table)]) ["a\n"] = ["a\n"] ++ ["\n"] :=
  (table_exceptions_caught ["a\n"] (Except.ok [⟨Except.error ()⟩])).2.2.1
    ⟨Except.error ()⟩ [] rfl rfl

/-! ## C5: table rendering -/

/-- C5 counterexample: the detected 2-row, 3-column table renders as 3
pipe-delimited Markdown table lines inside 5 emitted fragments (a blank
one before and after); under neither count does it render as exactly 4
lines. -/
theorem table_render_line_count :
    tablesBlock (Except.ok [table2x3]) [] =
      ["\n", "| a | b | c |", "| --- | --- | --- |", "| d | e | f |", "\n"]
  ∧ (tablesBlock (Except.ok [table2x3]) []).length = 5
  ∧ ((tablesBlock (Except.ok [table2x3]) []).filter
        (fun s => s.data.take 1 = ['|'])).length = 3
  ∧ (tablesBlock (Except.ok [table2x3]) []).length ≠ 4
  ∧ ((tablesBlock (Except.ok [table2x3]) []).filter
        (fun s => s.data.take 1 = ['|'])).length ≠ 4 := by
  decide

/-- C5 (amended).  Tables are emitted after all paragraph fragments; for
each successfully extracted table a blank fragment is emitted before and
after the rows; every row renders pipe-delimited with trimmed cells and
the first row is followed by a separator with one dash triple per column;
a 2-row table hence contributes exactly 3 pipe-delimited lines. -/
theorem table_rendering (acc : List String) (t : Table)
    (rows : List (List String)) (r0 r1 : List String) (rest : List (List String)) :
    rowsRender [] = []
  ∧ rowsRender (r0 :: rest) = rowLine r0 :: sepLine r0 :: rest.map rowLine
  ∧ rowLine r0 = "| " ++ String.intercalate " | " (r0.map pstrip) ++ " |"
  ∧ sepLine r0 = "| " ++ String.intercalate " | " (List.replicate r0.length "---") ++ " |"
  ∧ (t.extract = Except.ok rows →
       tableStep acc t = Except.ok (acc ++ ["\n"] ++ rowsRender rows ++ ["\n"]))
  ∧ (rowsRender [r0, r1]).length = 3
  ∧ (∀ ft, ∃ extra, tablesBlock ft acc = acc ++ extra) := by
  refine ⟨rfl, rfl, rfl, rfl, ?_, rfl, fun ft => tablesBlock_extends ft acc⟩
  intro hex
  simp [tableStep, hex]

/-- Witness: the table step on the concrete 2-row, 3-column table. -/
theorem table_rendering_witness :
    tableStep ["x"] table2x3 =
      Except.ok (["x"] ++ ["\n"] ++ rowsRender [["a", "b", "c"], ["d", "e", "f"]] ++ ["\n"]) :=
  (table_rendering ["x"] table2x3 [["a", "b", "c"], ["d", "e", "f"]]
    ["a", "b", "c"] ["d", "e", "f"] []).2.2.2.2.1 rfl

/-! ## C2: paragraph grouping -/

/-- The loop rest never produces an empty paragraph list. -/
theorem consume_ne_nil (xs : List LineInfo) :
    ∀ (cur : List LineInfo) (pt : ℚ), consume cur pt xs ≠ [] := by
  induction xs with
  | nil => intro cur pt; simp [consume]
  | cons x xs ih =>
    intro cur pt
    by_cases h : |x.top - pt| > 15
    · simp [consume, h]
    · simp only [consume, if_neg h]
      exact ih (cur ++ [x]) x.top

/-- Running the loop from an intermediate state equals appending what the
rest of the loop produces from the current paragraph. -/
theorem finish_foldl (xs : List LineInfo) :
    ∀ (g : List (List LineInfo)) (cur : List LineInfo) (pt : ℚ), cur ≠ [] →
      finishGroups (xs.foldl groupStep (g, cur, some pt)) = g ++ consume cur pt xs := by
  induction xs with
  | nil =>
    intro g cur pt hcur
    simp [finishGroups, consume, hcur]
  | cons x xs ih =>
    intro g cur pt hcur
    by_cases h : |x.top - pt| > 15
    · rw [List.foldl_cons,
        show groupStep (g, cur, some pt) x = (g ++ [cur], [x], some x.top) from by
          simp [groupStep, h],
        ih (g ++ [cur]) [x] x.top (by simp)]
      simp [consume, h, List.append_assoc]
    · rw [List.foldl_cons,
        show groupStep (g, cur, some pt) x = (g, cur ++ [x], some x.top) from by
          simp [groupStep, h],
        ih g (cur ++ [x]) x.top (by simp)]
      simp [consume, h]

/-- The source grouping on a nonempty line list is the loop rest started
from the first line alone. -/
theorem grouped_eq_consume (x : LineInfo) (xs : List LineInfo) :
    grouped_paragraphs (x :: xs) = consume [x] x.top xs := by
  have h0 : grouped_paragraphs (x :: xs)
      = finishGroups (xs.foldl groupStep ([], [x], some x.top)) := rfl
  rw [h0, finish_foldl xs [] [x] x.top (by simp)]
  simp

/-- A prefix glued onto the current paragraph reappears glued onto the
first produced paragraph: the boundary tests never look at it. -/
theorem consume_prepend (xs : List LineInfo) :
    ∀ (c cur : List LineInfo) (pt : ℚ),
      consume (c ++ cur) pt xs =
        match consume cur pt xs with
        | [] => [c]
        | q :: rest => (c ++ q) :: rest := by
  induction xs with
  | nil => intro c cur pt; simp [consume]
  | cons x xs ih =>
    intro c cur pt
    by_cases h : |x.top - pt| > 15
    · simp [consume, h]
    · simp only [consume, if_neg h]
      rw [List.append_assoc, ih c (cur ++ [x]) x.top]

/-- The spec grouping coincides with the loop rest. -/
theorem paraGroupsSpec_eq_consume (xs : List LineInfo) :
    ∀ x : LineInfo, paraGroupsSpec (x :: xs) = consume [x] x.top xs := by
  induction xs with
  | nil => intro x; simp [paraGroupsSpec, consume]
  | cons y ys ih =>
    intro x
    obtain ⟨g, gs, hc⟩ : ∃ g gs, consume [y] y.top ys = g :: gs := by
      cases hcc : consume [y] y.top ys with
      | nil => exact absurd hcc (consume_ne_nil ys [y] y.top)
      | cons a b => exact ⟨a, b, rfl⟩
    simp only [paraGroupsSpec]
    rw [ih y, hc]
    show (if |y.top - x.top| > 15 then [x] :: g :: gs else (x :: g) :: gs)
        = consume [x] x.top (y :: ys)
    by_cases h : |y.top - x.top| > 15
    · rw [if_pos h, consume, if_pos h, hc]
    · rw [if_neg h, consume, if_neg h, consume_prepend ys [x] [y] y.top, hc]
      rfl

/-- The produced paragraphs cover exactly the input lines, in order. -/
theorem consume_flatten (xs : List LineInfo) :
    ∀ (cur : List LineInfo) (pt : ℚ), (consume cur pt xs).flatten = cur ++ xs := by
  induction xs with
  | nil => intro cur pt; simp [consume]
  | cons x xs ih =>
    intro cur pt
    by_cases h : |x.top - pt| > 15
    · simp [consume, h, ih]
    · simp only [consume, if_neg h]
      rw [ih (cur ++ [x]) x.top]
      simp

/-- C2.  The grouping of retained lines coincides with the spec grouping:
a new paragraph starts exactly when the gap between consecutive line tops
strictly exceeds 15 units, the paragraphs partition the retained lines in
document order (the final paragraph is flushed), a gap of exactly 15 keeps
two lines together, and a gap of 15.01 separates them. -/
theorem grouping_by_gap (l : List LineInfo) :
    grouped_paragraphs l = paraGroupsSpec l
  ∧ (grouped_paragraphs l).flatten = l
  ∧ (∀ a b : LineInfo, |b.top - a.top| ≤ 15 → grouped_paragraphs [a, b] = [[a, b]])
  ∧ (∀ a b : LineInfo, |b.top - a.top| > 15 → grouped_paragraphs [a, b] = [[a], [b]]) := by
  refine ⟨?_, ?_, ?_, ?_⟩
  · cases l with
    | nil => rfl
    | cons x xs => rw [grouped_eq_consume, paraGroupsSpec_eq_consume]
  · cases l with
    | nil => rfl
    | cons x xs =>
      rw [grouped_eq_consume, consume_flatten xs [x] x.top]
      rfl
  · intro a b hle
    rw [grouped_eq_consume a [b], consume, if_neg (not_lt.mpr hle)]
    rfl
  · intro a b hgt
    rw [grouped_eq_consume a [b], consume, if_pos hgt]
    rfl

/-- Witness: tops 0 and 15 stay together, tops 0 and 15.01 split. -/
theorem grouping_by_gap_witness :
    grouped_paragraphs [⟨"a", 0, 12⟩, ⟨"b", 15, 12⟩] = [[⟨"a", 0, 12⟩, ⟨"b", 15, 12⟩]]
  ∧ grouped_paragraphs [⟨"a", 0, 12⟩, ⟨"b", 1501/100, 12⟩]
      = [[⟨"a", 0, 12⟩], [⟨"b", 1501/100, 12⟩]] :=
  ⟨(grouping_by_gap []).2.2.1 ⟨"a", 0, 12⟩ ⟨"b", 15, 12⟩ (by norm_num),
   (grouping_by_gap []).2.2.2 ⟨"a", 0, 12⟩ ⟨"b", 1501/100, 12⟩
     (by rw [show (⟨"b", 1501/100, 12⟩ : LineInfo).top - (⟨"a", 0, 12⟩ : LineInfo).top
               = 1501/100 from by norm_num,
             abs_of_nonneg (by norm_num : (0:ℚ) ≤ 1501/100)]
         norm_num)⟩

/-! ## C3: span formatting -/

/-- Join of a cons of strings. -/
theorem string_join_cons (a : String) (l : List String) :
    String.join (a :: l) = a ++ String.join l := by
  apply String.ext
  simp

/-- The span loop accumulator equals the filtered, formatted,
space-separated concatenation of the spec wording. -/
theorem buildLine_fst (spans : List Span) :
    ∀ (s : String) (szs : List ℚ),
      (spans.foldl lineFoldStep (s, szs)).1 =
        s ++ String.join ((spans.filter (fun sp => pstrip sp.text != "")).map
          (fun sp => formattedFragment sp ++ " ")) := by
  induction spans with
  | nil =>
    intro s szs
    simp [String.join]
  | cons sp sps ih =>
    intro s szs
    by_cases h : pstrip sp.text = ""
    · rw [List.foldl_cons,
        show lineFoldStep (s, szs) sp = (s, szs) from by simp [lineFoldStep, h],
        ih s szs]
      simp [List.filter_cons, h]
    · rw [List.foldl_cons,
        show lineFoldStep (s, szs) sp
            = (s ++ (formattedFragment sp ++ " "), szs ++ [sp.size]) from by
          simp [lineFoldStep, h, formattedFragment, String.append_assoc],
        ih (s ++ (formattedFragment sp ++ " ")) (szs ++ [sp.size]),
        List.filter_cons, if_pos (by simp [h]), List.map_cons, string_join_cons]
      simp [String.append_assoc]

/-- C3.  Span styling: a span is bold iff its font name contains Bold and
italic iff it contains Italic or Oblique; its trimmed text is wrapped in
three, two, one or zero asterisk pairs accordingly; and the line text of
the source loop equals the spec wording, formatted fragments each followed
by a single space, concatenated and trimmed. -/
theorem span_formatting (spans : List Span) (sp : Span) :
    pstrip (buildLine spans).1 = lineTextSpec spans
  ∧ isBoldSpan sp = strContains sp.font "Bold"
  ∧ isItalicSpan sp = (strContains sp.font "Italic" || strContains sp.font "Oblique")
  ∧ (isBoldSpan sp = true → isItalicSpan sp = true →
       formattedFragment sp = "***" ++ pstrip sp.text ++ "***")
  ∧ (isBoldSpan sp = true → isItalicSpan sp = false →
       formattedFragment sp = "**" ++ pstrip sp.text ++ "**")
  ∧ (isBoldSpan sp = false → isItalicSpan sp = true →
       formattedFragment sp = "*" ++ pstrip sp.text ++ "*")
  ∧ (isBoldSpan sp = false → isItalicSpan sp = false →
       formattedFragment sp = pstrip sp.text) := by
  refine ⟨?_, rfl, rfl, ?_, ?_, ?_, ?_⟩
  · rw [lineTextSpec, buildLine, buildLine_fst spans "" []]
    rfl
  all_goals intro hb hi
  all_goals simp [formattedFragment, format_span, hb, hi]

/-- Witness: the four styling cases and the loop/spec agreement on a
concrete one-span line. -/
theorem span_formatting_witness :
    formattedFragment ⟨" x ", "Foo-BoldItalic", 12⟩ = "***" ++ pstrip " x " ++ "***"
  ∧ formattedFragment ⟨"x", "Foo-Bold", 12⟩ = "**" ++ pstrip "x" ++ "**"
  ∧ formattedFragment ⟨"x", "Foo-Oblique", 12⟩ = "*" ++ pstrip "x" ++ "*"
  ∧ formattedFragment ⟨"x", "Foo", 12⟩ = pstrip "x"
  ∧ pstrip (buildLine [⟨" x ", "Foo-BoldItalic", 12⟩]).1
      = lineTextSpec [⟨" x ", "Foo-BoldItalic", 12⟩] :=
  ⟨(span_formatting [] ⟨" x ", "Foo-BoldItalic", 12⟩).2.2.2.1 (by decide) (by decide),
   (span_formatting [] ⟨"x", "Foo-Bold", 12⟩).2.2.2.2.1 (by decide) (by decide),
   (span_formatting [] ⟨"x", "Foo-Oblique", 12⟩).2.2.2.2.2.1 (by decide) (by decide),
   (span_formatting [] ⟨"x", "Foo", 12⟩).2.2.2.2.2.2 (by decide) (by decide),
   (span_formatting [⟨" x ", "Foo-BoldItalic", 12⟩] ⟨" x ", "Foo-BoldItalic", 12⟩).1⟩

/-! ## C6: a page with no extractable span text -/

/-- A span loop over only skipped spans leaves the accumulator unchanged. -/
theorem foldl_lineFoldStep_skip (spans : List Span) :
    ∀ acc : String × List ℚ, (∀ sp ∈ spans, pstrip sp.text = "") →
      spans.foldl lineFoldStep acc = acc := by
  induction spans with
  | nil => intro acc h; rfl
  | cons sp sps ih =>
    intro acc h
    rw [List.foldl_cons,
      show lineFoldStep acc sp = acc from by simp [lineFoldStep, h sp (by simp)]]
    exact ih acc (fun q hq => h q (by simp [hq]))

/-- A line whose spans all strip to nothing is not retained. -/
theorem lineEntry_none (ln : SrcLine) (h : ∀ sp ∈ ln.spans, pstrip sp.text = "") :
    lineEntry ln = none := by
  have hb : buildLine ln.spans = ("", []) := foldl_lineFoldStep_skip ln.spans ("", []) h
  simp [lineEntry, hb, pstrip, stripChars]

/-- C6.  A page on which no span has nonempty trimmed text, and whose
table finder detects no table, extracts to the empty content string. -/
theorem empty_page_empty_content (blocks : List Block) (tr : TablesResult)
    (hsp : ∀ b ∈ blocks, ∀ ln ∈ b.lines, ∀ sp ∈ ln.spans, pstrip sp.text = "")
    (htb : tr = Except.ok []) :
    extract_page_markdown ⟨blocks, tr⟩ = "" := by
  have hsbl : spans_by_line blocks = [] := by
    rw [spans_by_line, List.filterMap_eq_nil_iff]
    intro ln hln
    rw [List.mem_flatten] at hln
    obtain ⟨ls, hls, hmem⟩ := hln
    rw [List.mem_map] at hls
    obtain ⟨b, hb, rfl⟩ := hls
    exact lineEntry_none ln (hsp b hb ln hmem)
  subst htb
  simp only [extract_page_markdown]
  rw [hsbl]
  rfl

/-- Witness: a page whose single span is whitespace only. -/
theorem empty_page_empty_content_witness :
    extract_page_markdown ⟨[⟨[⟨⟨0, 0, 1, 1⟩, [⟨"  ", "F", 12⟩]⟩]⟩], Except.ok []⟩ = "" :=
  empty_page_empty_content [⟨[⟨⟨0, 0, 1, 1⟩, [⟨"  ", "F", 12⟩]⟩]⟩] (Except.ok [])
    (by decide) rfl

/-! ## C7: a page with a single plain-text line -/

/-- The head surviving dropWhile falsifies the predicate. -/
theorem dropWhile_head_false {α : Type} {p : α → Bool} :
    ∀ (l : List α) (a : α) (t : List α), l.dropWhile p = a :: t → p a = false := by
  intro l
  induction l with
  | nil => intro a t h; simp at h
  | cons c cs ih =>
    intro a t h
    by_cases hp : p c
    · rw [List.dropWhile_cons_of_pos hp] at h
      exact ih a t h
    · rw [List.dropWhile_cons_of_neg hp] at h
      cases h
      simpa using hp

/-- dropWhile is idempotent. -/
theorem dropWhile_idem {α : Type} {p : α → Bool} (l : List α) :
    (l.dropWhile p).dropWhile p = l.dropWhile p := by
  cases h : l.dropWhile p with
  | nil => rfl
  | cons a t =>
    rw [List.dropWhile_cons_of_neg (by simp [dropWhile_head_false l a t h])]

/-- A nonempty dropWhile result keeps the last element of the list. -/
theorem dropWhile_getLast? {α : Type} {p : α → Bool} :
    ∀ l : List α, l.dropWhile p ≠ [] → (l.dropWhile p).getLast? = l.getLast? := by
  intro l
  induction l with
  | nil => intro h; simp at h
  | cons c cs ih =>
    intro h
    by_cases hp : p c
    · rw [List.dropWhile_cons_of_pos hp] at h ⊢
      have hcs : cs ≠ [] := by
        intro he
        rw [he] at h
        simp at h
      cases cs with
      | nil => exact absurd rfl hcs
      | cons b bs => rw [ih h, List.getLast?_cons_cons]
    · rw [List.dropWhile_cons_of_neg hp]

/-- Stripping is stable under appending one space to an already stripped
nonempty character list. -/
theorem stripChars_append_space (l : List Char) (hne : stripChars l ≠ []) :
    stripChars (stripChars l ++ [' ']) = stripChars l := by
  set u := l.dropWhile Char.isWhitespace with hu
  set w := u.reverse.dropWhile Char.isWhitespace with hw
  have hm : stripChars l = w.reverse := rfl
  have hwne : w ≠ [] := by
    intro he
    apply hne
    rw [hm, he]
    rfl
  -- the reverse of the stripped list is untouched by a further dropWhile
  have hB : (stripChars l).reverse.dropWhile Char.isWhitespace = (stripChars l).reverse := by
    rw [hm, List.reverse_reverse, hw]
    exact dropWhile_idem u.reverse
  -- the stripped list itself is untouched by a further dropWhile
  have hA : (stripChars l).dropWhile Char.isWhitespace = stripChars l := by
    have hune : u ≠ [] := by
      intro he
      apply hwne
      rw [hw, he]
      rfl
    obtain ⟨b, s, hbs⟩ : ∃ b s, u = b :: s := by
      cases hc : u with
      | nil => exact absurd hc hune
      | cons b s => exact ⟨b, s, rfl⟩
    have hbfalse : Char.isWhitespace b = false := dropWhile_head_false l b s (hu ▸ hbs)
    have hhead : (stripChars l).head? = some b := by
      rw [hm, List.head?_reverse, hw, dropWhile_getLast? u.reverse (by rw [← hw]; exact hwne),
        List.getLast?_reverse, hbs]
      rfl
    cases hc : stripChars l with
    | nil => exact absurd hc hne
    | cons a t =>
      have : a = b := by
        rw [hc] at hhead
        simpa using hhead
      rw [List.dropWhile_cons_of_neg (by simp [this, hbfalse])]
  -- now compute
  rw [stripChars, List.dropWhile_append, hA,
    show (stripChars l).isEmpty = false from by
      cases hc : stripChars l with
      | nil => exact absurd hc hne
      | cons a t => rfl]
  simp only [Bool.false_eq_true, if_false, List.reverse_append]
  rw [show ([' '] : List Char).reverse = [' '] from rfl]
  rw [show (([' '] : List Char) ++ (stripChars l).reverse) = ' ' :: (stripChars l).reverse from rfl]
  rw [List.dropWhile_cons_of_pos (by rfl), hB, List.reverse_reverse]

/-- Stripping is stable under appending one space to an already stripped
nonempty string. -/
theorem pstrip_append_space (s : String) (h : pstrip s ≠ "") :
    pstrip (pstrip s ++ " ") = pstrip s := by
  have hl : stripChars s.data ≠ [] := by
    intro he
    apply h
    apply String.ext
    simp [pstrip, he]
  apply String.ext
  show stripChars (pstrip s ++ " ").data = stripChars s.data
  rw [show (pstrip s ++ " ").data = stripChars s.data ++ [' '] from by
    rw [String.data_append]
    rfl]
  exact stripChars_append_space s.data hl

/-- C7.  A page whose only content is one line holding one plain-text span
(font name free of Bold, Italic and Oblique, nonnegative size) and with no
detected tables extracts to exactly the trimmed span text followed by one
newline and no heading prefix: its first-line size equals the page-normal
size and every threshold comparison is strict. -/
theorem single_line_page_content (bb : BBox) (sp : Span) (tr : TablesResult)
    (hne : pstrip sp.text ≠ "")
    (hB : strContains sp.font "Bold" = false)
    (hI : strContains sp.font "Italic" = false)
    (hO : strContains sp.font "Oblique" = false)
    (hsz : 0 ≤ sp.size)
    (htb : tr = Except.ok []) :
    extract_page_markdown ⟨[⟨[⟨bb, [sp]⟩]⟩], tr⟩ = pstrip sp.text ++ "\n" := by
  subst htb
  have hital : isItalicSpan sp = false := by
    simp [isItalicSpan, hI, hO]
  have hfold : buildLine [sp] = (pstrip sp.text ++ " ", [sp.size]) := by
    simp [buildLine, lineFoldStep, hne, format_span, isBoldSpan, hB, hital]
  have htext : pstrip (pstrip sp.text ++ " ") = pstrip sp.text :=
    pstrip_append_space sp.text hne
  have hentry : lineEntry ⟨bb, [sp]⟩ = some ⟨pstrip sp.text, bb.y0, sp.size⟩ := by
    simp only [lineEntry, hfold, htext]
    rw [if_neg hne]
    simp [median, sortAsc, insertSorted]
  have hsbl : spans_by_line [⟨[⟨bb, [sp]⟩]⟩] = [⟨pstrip sp.text, bb.y0, sp.size⟩] := by
    simp [spans_by_line, hentry]
  have hnorm : normalSize [(⟨pstrip sp.text, bb.y0, sp.size⟩ : LineInfo)] = sp.size := by
    simp [normalSize, median, sortAsc, insertSorted]
  have hhead : headingOf sp.size sp.size = "" := by
    rw [headingOf, if_neg (not_lt.mpr (by linarith)), if_neg (not_lt.mpr (by linarith)),
      if_neg (not_lt.mpr (by linarith))]
  simp only [extract_page_markdown]
  rw [hsbl, hnorm]
  show String.intercalate "\n"
      [headingOf sp.size sp.size ++ String.intercalate " " [pstrip sp.text] ++ "\n"]
    = pstrip sp.text ++ "\n"
  rw [hhead]
  rfl

/-- Witness: a concrete single-line page. -/
theorem single_line_page_content_witness :
    extract_page_markdown ⟨[⟨[⟨⟨0, 0, 10, 5⟩, [⟨"  hello ", "F", 12⟩]⟩]⟩], Except.ok []⟩
      = pstrip "  hello " ++ "\n" :=
  single_line_page_content ⟨0, 0, 10, 5⟩ ⟨"  hello ", "F", 12⟩ (Except.ok [])
    (by decide) (by decide) (by decide) (by decide) (by norm_num) rfl

/-! ## C10: the replace_text color leak -/

/-- C10.  On every page where replace_text performs at least one
replacement, each issued insert_text call takes its font name and size
from the span matched to its found instance (a span containing the text
and intersecting the instance box), but its color always comes from the
last span iterated over the whole page, the loop variable leaking out of
the span-collection loop. -/
theorem replace_text_color_leak (old new : String)
    (blocks : List (List (List WSpan))) (instances : List Rect)
    (hrep : page_replacements old (pageAllSpans blocks) instances ≠ []) :
    ∃ lastSp, (pageAllSpans blocks).getLast? = some lastSp
  ∧ (∀ ins ∈ replace_text_insertions old new blocks instances,
        ins.color = parse_fontcolor (ColorVal.int lastSp.color))
  ∧ (∀ r ∈ page_replacements old (pageAllSpans blocks) instances,
        ∃ sp ∈ pageAllSpans blocks,
          (strContains sp.text old && Rect.intersects sp.bbox r.bbox) = true
        ∧ r.font = sp.font ∧ r.size = sp.size ∧ r.origin = sp.origin)
  ∧ (∀ ins ∈ replace_text_insertions old new blocks instances,
        ∃ r ∈ page_replacements old (pageAllSpans blocks) instances,
          ins.fontname = parse_fontname r.font ∧ ins.fontsize = r.size
        ∧ ins.text = new ∧ ins.pos = (r.bbox.x0, r.origin.2)) := by
  have hspans : pageAllSpans blocks ≠ [] := by
    intro he
    apply hrep
    rw [he]
    simp [page_replacements, matching_spans]
  obtain ⟨lastSp, hlast⟩ : ∃ x, (pageAllSpans blocks).getLast? = some x := by
    cases hg : (pageAllSpans blocks).getLast? with
    | none => exact absurd (List.getLast?_eq_none_iff.mp hg) hspans
    | some x => exact ⟨x, rfl⟩
  refine ⟨lastSp, hlast, ?_, ?_, ?_⟩
  · intro ins hins
    simp only [replace_text_insertions, List.mem_map] at hins
    obtain ⟨r, hr, rfl⟩ := hins
    simp [leakedColor, hlast]
  · intro r hr
    simp only [page_replacements, List.mem_filterMap] at hr
    obtain ⟨inst, hinst, hf⟩ := hr
    obtain ⟨best, tl, hm⟩ : ∃ best tl,
        matching_spans old (pageAllSpans blocks) inst = best :: tl := by
      cases hmm : matching_spans old (pageAllSpans blocks) inst with
      | nil => rw [hmm] at hf; simp at hf
      | cons a b => exact ⟨a, b, rfl⟩
    rw [hm] at hf
    have hrdef : r = ⟨inst, best.font, best.size, best.origin⟩ := by
      have := hf
      simp at this
      exact this.symm
    have hbest : best ∈ matching_spans old (pageAllSpans blocks) inst := by
      rw [hm]
      simp
    rw [matching_spans, List.mem_filter] at hbest
    refine ⟨best, hbest.1, ?_, ?_, ?_, ?_⟩
    · rw [hrdef]
      exact hbest.2
    · rw [hrdef]
    · rw [hrdef]
    · rw [hrdef]
  · intro ins hins
    simp only [replace_text_insertions, List.mem_map] at hins
    obtain ⟨r, hr, rfl⟩ := hins
    exact ⟨r, hr, rfl, rfl, rfl, rfl⟩

/-- Witness: on the demo page the matched span has font Arial and color
255, yet the inserted text takes the color of the last span, 0, decoded to
black, while font name and size come from the matched span. -/
theorem replace_text_color_leak_witness :
    ∃ lastSp, (pageAllSpans demoBlocks).getLast? = some lastSp
  ∧ (∀ ins ∈ replace_text_insertions "old" "NEW" demoBlocks [demoInst],
        ins.color = parse_fontcolor (ColorVal.int lastSp.color))
  ∧ (∀ r ∈ page_replacements "old" (pageAllSpans demoBlocks) [demoInst],
        ∃ sp ∈ pageAllSpans demoBlocks,
          (strContains sp.text "old" && Rect.intersects sp.bbox r.bbox) = true
        ∧ r.font = sp.font ∧ r.size = sp.size ∧ r.origin = sp.origin)
  ∧ (∀ ins ∈ replace_text_insertions "old" "NEW" demoBlocks [demoInst],
        ∃ r ∈ page_replacements "old" (pageAllSpans demoBlocks) [demoInst],
          ins.fontname = parse_fontname r.font ∧ ins.fontsize = r.size
        ∧ ins.text = "NEW" ∧ ins.pos = (r.bbox.x0, r.origin.2)) :=
  replace_text_color_leak "old" "NEW" demoBlocks [demoInst] (by decide)

end PdfTools
